import Mathlib

/-!
Shallow embedding of the incremental dataflow execution engine of `chidori`
(`src/toolchain/chidori-core/src/execution/execution/execution_state.rs`),
together with theorems about its stepping algorithm, value store, and
dependency-graph mutation protocol.

Modelling conventions:
* `OperationId` and `ArgumentIndex` are Rust `usize`; they are embedded as
  `Nat`.  The reserved order-only sentinel is `usize::MAX = 2^64 - 1`.
* Byte buffers `Vec<u8>` are embedded as `List Nat`.
* The persistent maps (`im::HashMap`) holding the value store, the
  `has_been_set` set and the operation table are embedded as functions
  `Nat → Option _` / `Nat → Bool`; the dependency-graph map is embedded as an
  association list because the stepping algorithm iterates over its keys.
* Rust panics (`unwrap` on a missing key, out-of-bounds `Vec` indexing) are
  embedded as `Option`: a function that can panic returns `none` on the
  panicking path.
* Hash-set / hash-map iteration order is unspecified in the source; the
  embedding fixes a canonical order (entry-list order, first occurrence) and
  `stepOrder` is additionally parametrised by the node iteration order so that
  order-independence can be stated and proved.
-/

abbrev OperationId := Nat

abbrev ArgumentIndex := Nat

/-- Byte buffer (`Vec<u8>`). -/
abbrev Buf := List Nat

/-- Reserved "order-only" sentinel: `usize::MAX` on a 64-bit target. -/
def USIZE_MAX : Nat := 2 ^ 64 - 1

/-- Modelled from the spec: `RkyvSerializedValue` lives outside the provided
sources; the spec (§1) treats the serialization codec as opaque, so a
deserialized value is modelled as a wrapper around the raw bytes. -/
structure RSV where
  bytes : Buf

/-- Modelled from the spec: the deserialization primitive
`deserialize_from_buf` lives outside the provided sources; the spec (§1)
treats it as an opaque primitive, modelled as the trivial injection. -/
def deserialize_from_buf (b : Buf) : RSV := ⟨b⟩

/-- Modelled from the spec: `OperationNode` lives outside the provided
sources; per spec §3/§4.4 it is a fixed arity `dependency_count` together
with an opaque body mapping an ordered list of optional byte buffers to an
optional output buffer. -/
structure OperationNode where
  dependency_count : Nat
  body : List (Option Buf) → Option Buf

/-- Mutation log entries for the dependency graph (`DependencyGraphMutation`). -/
inductive DependencyGraphMutation where
  | Create (operation_id : OperationId) (depends_on : List (OperationId × ArgumentIndex))
  | Delete (operation_id : OperationId)

/-- The execution state (`ExecutionState`): id, value store, operation table,
ever-set record and dependency graph.  `state i = some v` means the store has
an entry for `i` holding the optional buffer `v` (a fired node that returned
no output stores `none` under its id). -/
structure ExecutionState where
  id : Nat × Nat
  state : OperationId → Option (Option Buf)
  operation_by_id : OperationId → Option OperationNode
  has_been_set : OperationId → Bool
  dependency_graph : List (OperationId × List (OperationId × ArgumentIndex))

/-- Association-list lookup (first matching key), mirroring map lookup. -/
def alookup {α : Type} : List (Nat × α) → Nat → Option α
  | [], _ => none
  | (k, v) :: r, x => if x = k then some v else alookup r x

/-- Empty state (`ExecutionState::new`). -/
def ExecutionState.new : ExecutionState :=
  { id := (0, 0)
    state := fun _ => none
    operation_by_id := fun _ => none
    has_been_set := fun _ => false
    dependency_graph := [] }

/-- Raw store access (`state_get`): `none` = no entry for the key. -/
def ExecutionState.state_get (s : ExecutionState) (operation_id : OperationId) :
    Option (Option Buf) :=
  s.state operation_id

/-- Deserializing store access (`state_get_value`).  The Rust code unwraps the
stored optional buffer, so the result is `none` (panic) when the store holds
an explicit absent value, `some none` when the key has no entry, and
`some (some v)` when a present buffer deserializes to `v`. -/
def ExecutionState.state_get_value (s : ExecutionState) (operation_id : OperationId) :
    Option (Option RSV) :=
  match s.state operation_id with
  | none => some none
  | some none => none
  | some (some b) => some (some (deserialize_from_buf b))

/-- Membership in the ever-set record (`check_if_previously_set`). -/
def ExecutionState.check_if_previously_set (s : ExecutionState)
    (operation_id : OperationId) : Bool :=
  s.has_been_set operation_id

/-- Store insertion (`state_insert`): records the value and marks the id as
having ever been set. -/
def ExecutionState.state_insert (s : ExecutionState) (operation_id : OperationId)
    (value : Option Buf) : ExecutionState :=
  { s with
    state := fun x => if x = operation_id then some value else s.state x
    has_been_set := fun x => decide (x = operation_id) || s.has_been_set x }

/-- Entry replacement for `Create`: the Rust code clears and refills (or
freshly inserts) the `HashSet` keyed by `operation_id`; the set contents are
the deduplicated dependency pairs. -/
def graphCreate : List (OperationId × List (OperationId × ArgumentIndex)) →
    OperationId → List (OperationId × ArgumentIndex) →
    List (OperationId × List (OperationId × ArgumentIndex))
  | [], k, deps => [(k, deps.dedup)]
  | (k', es) :: rest, k, deps =>
    if k' = k then (k', deps.dedup) :: rest else (k', es) :: graphCreate rest k deps

/-- Application of a single dependency-graph mutation. -/
def applyMutation (g : List (OperationId × List (OperationId × ArgumentIndex)))
    (m : DependencyGraphMutation) :
    List (OperationId × List (OperationId × ArgumentIndex)) :=
  match m with
  | DependencyGraphMutation.Create k deps => graphCreate g k deps
  | DependencyGraphMutation.Delete k => g.filter (fun e => decide (e.1 ≠ k))

/-- Mutation protocol (`apply_dependency_graph_mutations`): applies the
mutations in order to a clone of the state and returns the new state. -/
def ExecutionState.apply_dependency_graph_mutations (s : ExecutionState)
    (mutations : List DependencyGraphMutation) : ExecutionState :=
  { s with dependency_graph := mutations.foldl applyMutation s.dependency_graph }

/-- Incoming dependency pairs of a node: the `(source, slot)` set stored under
its id (sources of the incoming edges of the materialized graph). -/
def entryPairs (s : ExecutionState) (n : OperationId) :
    List (OperationId × ArgumentIndex) :=
  (alookup s.dependency_graph n).getD []

/-- Canonical list of the nodes of the materialized dependency graph: every
key and every source mentioned by an entry, in first-occurrence order
(mirroring `get_dependency_graph` adding each key and each edge endpoint). -/
def nodesList (s : ExecutionState) : List OperationId :=
  (s.dependency_graph.flatMap (fun e => e.1 :: e.2.map Prod.fst)).dedup

/-- Per-node outcome of one tick: whether the node fired (and with which
result), and which sources it read. -/
structure NodeEffect where
  output : Option (Option Buf)
  marks : List OperationId

/-- Argument-gathering scan over the incoming dependency pairs of a node
(the `edges_directed(.., Incoming)` loop of `step_execution`): each pair whose
source has a store entry marks the source, writes the stored optional buffer
into the argument slot and decrements the remaining-required count
(saturating).  An out-of-bounds slot index is a Rust panic (`none`). -/
def scanPairs (s : ExecutionState) :
    List (OperationId × ArgumentIndex) → List (Option Buf) → Nat → List OperationId →
    Option (List (Option Buf) × Nat × List OperationId)
  | [], args, rem, marks => some (args, rem, marks)
  | (src, idx) :: rest, args, rem, marks =>
    match s.state src with
    | none => scanPairs s rest args rem marks
    | some v =>
      if idx < args.length then
        scanPairs s rest (args.set idx v) (rem - 1) (marks ++ [src])
      else
        none

/-- Processing of one node of the dependency graph during a tick: operation
lookup (panic when absent), the fire-at-most-once guard for zero-arity nodes,
the argument scan, and the readiness check. -/
def nodeEffect (s : ExecutionState) (n : OperationId) : Option NodeEffect :=
  match s.operation_by_id n with
  | none => none
  | some op =>
    if op.dependency_count = 0 ∧ s.has_been_set n = true then
      some ⟨none, []⟩
    else
      match scanPairs s (entryPairs s n)
          (List.replicate op.dependency_count none) op.dependency_count [] with
      | none => none
      | some (args, rem, marks) =>
        if rem = 0 then some ⟨some (op.body args), marks⟩ else some ⟨none, marks⟩

/-- Output component of a node's effect (`none` when the node does not fire
or its processing panics). -/
def outputOf (s : ExecutionState) (n : OperationId) : Option (Option Buf) :=
  match nodeEffect s n with
  | some e => e.output
  | none => none

/-- Sources read by a node during the tick. -/
def marksOf (s : ExecutionState) (n : OperationId) : List OperationId :=
  match nodeEffect s n with
  | some e => e.marks
  | none => []

/-- Intra-tick accumulator: the new generation's store and ever-set record
under construction, plus the consumption marks. -/
structure TickAcc where
  store : OperationId → Option (Option Buf)
  hbs : OperationId → Bool
  marked : OperationId → Bool

/-- Application of one node's effect to the accumulator: a fired node's
result is inserted under its id (`state_insert` on the new state) and every
read source is marked for consumption. -/
def applyEffect (n : OperationId) (e : NodeEffect) (acc : TickAcc) : TickAcc :=
  { store :=
      match e.output with
      | some r => fun x => if x = n then some r else acc.store x
      | none => acc.store
    hbs :=
      match e.output with
      | some _ => fun x => decide (x = n) || acc.hbs x
      | none => acc.hbs
    marked := fun x => decide (x ∈ e.marks) || acc.marked x }

/-- One fold step of the tick: process node `n`, propagating panics. -/
def tickStep (s : ExecutionState) (o : Option TickAcc) (n : OperationId) :
    Option TickAcc :=
  match o with
  | none => none
  | some acc =>
    match nodeEffect s n with
    | none => none
    | some e => some (applyEffect n e acc)

/-- One tick with an explicit node iteration order: fold the per-node
processing over `order` starting from a clone of the previous state, then
remove every marked source from the new generation's store
(`state_consume_marked`). -/
def stepOrder (s : ExecutionState) (order : List OperationId) :
    Option ExecutionState :=
  (order.foldl (tickStep s) (some ⟨s.state, s.has_been_set, fun _ => false⟩)).map
    (fun acc =>
      { s with
        state := fun x => if acc.marked x then none else acc.store x
        has_been_set := acc.hbs })

/-- The stepping algorithm (`step_execution`): one tick over the nodes of the
materialized dependency graph in the canonical order.  `none` is a panic of
the Rust code. -/
def ExecutionState.step_execution (s : ExecutionState) : Option ExecutionState :=
  stepOrder s (nodesList s)

/-- Iterated stepping: the chain of states produced by `k` successive calls
of `step_execution`, `none` as soon as one tick panics. -/
def stepN (s : ExecutionState) : Nat → Option ExecutionState
  | 0 => some s
  | k + 1 => (s.step_execution).bind (fun t => stepN t k)

/-- Number of incoming dependency pairs of `n` whose source holds a value in
the store of `s` (the fills of the argument scan on a non-panicking tick). -/
def fillCount (s : ExecutionState) (n : OperationId) : Nat :=
  ((entryPairs s n).filter (fun p => (s.state p.1).isSome)).length

/-- Whether node `n` fires during the tick stepping `s`: it is a node of the
dependency graph and its processing reaches the body invocation. -/
def fires (s : ExecutionState) (n : OperationId) : Bool :=
  decide (n ∈ nodesList s) && (outputOf s n).isSome

/-- Whether the id `x` is read as a source by any node during the tick
stepping `s` (the `marked_for_consumption` set). -/
def markedOf (s : ExecutionState) (x : OperationId) : Bool :=
  decide (∃ m ∈ nodesList s, x ∈ marksOf s m)

/-! Concrete states used to evaluate the model on small inputs. -/

/-- Operation body returning the constant buffer `b`. -/
def bodyConst (b : Buf) : List (Option Buf) → Option Buf := fun _ => some b

/-- State with a chain `1 → 2 → 3` (slot 0 each) where both node 1's and
node 2's outputs are already in the store: during the next tick node 2
refires from node 1's value while node 3 reads node 2's old value, so the
consumption pass evicts node 2's fresh output. -/
def stateEvict : ExecutionState :=
  { id := (0, 0)
    state := fun x =>
      if x = 1 then some (some [1]) else if x = 2 then some (some [2]) else none
    operation_by_id := fun x =>
      if x = 1 then some ⟨0, bodyConst [1]⟩
      else if x = 2 then some ⟨1, bodyConst [12]⟩
      else if x = 3 then some ⟨1, bodyConst [13]⟩
      else none
    has_been_set := fun x => decide (x = 1) || decide (x = 2)
    dependency_graph := [(2, [(1, 0)]), (3, [(2, 0)])] }

/-- State where node 4 has `dependency_count = 2` but both incoming edges
target slot 0 (from sources 1 and 2, both valued): the per-fill counting lets
node 4 fire although slot 1 is never filled. -/
def stateDup : ExecutionState :=
  { id := (0, 0)
    state := fun x =>
      if x = 1 then some (some [1]) else if x = 2 then some (some [2]) else none
    operation_by_id := fun x =>
      if x = 1 then some ⟨0, bodyConst [1]⟩
      else if x = 2 then some ⟨0, bodyConst [2]⟩
      else if x = 4 then some ⟨2, bodyConst [44]⟩
      else none
    has_been_set := fun x => decide (x = 1) || decide (x = 2)
    dependency_graph := [(4, [(1, 0), (2, 0)])] }

/-- State with a single valued dependency `1 → 2` feeding slot 0: node 2
fires on the next tick and nothing consumes node 2's output. -/
def stateFire : ExecutionState :=
  { id := (0, 0)
    state := fun x => if x = 1 then some (some [5]) else none
    operation_by_id := fun x =>
      if x = 1 then some ⟨0, bodyConst [5]⟩
      else if x = 2 then some ⟨1, bodyConst [9]⟩
      else none
    has_been_set := fun x => decide (x = 1)
    dependency_graph := [(2, [(1, 0)])] }

/-- Result of one tick from `stateFire`. -/
def stateFire' : ExecutionState :=
  (stateFire.step_execution).getD ExecutionState.new

/-- State where node 2 needs two inputs but only source 1 holds a value
(source 3 is a fresh zero-arity node): node 2 reads source 1 without ever
firing. -/
def stateConsume : ExecutionState :=
  { id := (0, 0)
    state := fun x => if x = 1 then some (some [5]) else none
    operation_by_id := fun x =>
      if x = 1 then some ⟨0, bodyConst [5]⟩
      else if x = 2 then some ⟨2, bodyConst [2]⟩
      else if x = 3 then some ⟨0, bodyConst [7]⟩
      else none
    has_been_set := fun x => decide (x = 1)
    dependency_graph := [(2, [(1, 0), (3, 1)])] }

/-- Result of one tick from `stateConsume`. -/
def stateConsume' : ExecutionState :=
  (stateConsume.step_execution).getD ExecutionState.new

/-- State with a fresh zero-arity node 1 in the graph. -/
def stateZero : ExecutionState :=
  { id := (0, 0)
    state := fun _ => none
    operation_by_id := fun x => if x = 1 then some ⟨0, bodyConst [1]⟩ else none
    has_been_set := fun _ => false
    dependency_graph := [(1, [])] }

/-- Result of one tick from `stateZero`. -/
def stateZero' : ExecutionState :=
  (stepN stateZero 1).getD ExecutionState.new

/-- State with an order-only (sentinel-labelled) edge `1 → 2` whose source
holds a value in the store. -/
def stateSentinel : ExecutionState :=
  { id := (0, 0)
    state := fun x => if x = 1 then some (some [7]) else none
    operation_by_id := fun x =>
      if x = 1 then some ⟨0, bodyConst [7]⟩
      else if x = 2 then some ⟨1, bodyConst [2]⟩
      else none
    has_been_set := fun x => decide (x = 1)
    dependency_graph := [(2, [(1, USIZE_MAX)])] }

/-- State used to exercise order-independence of the tick. -/
def statePerm : ExecutionState :=
  { id := (0, 0)
    state := fun x => if x = 1 then some (some [3]) else none
    operation_by_id := fun x =>
      if x = 1 then some ⟨0, bodyConst [3]⟩
      else if x = 2 then some ⟨1, bodyConst [6]⟩
      else none
    has_been_set := fun x => decide (x = 1)
    dependency_graph := [(2, [(1, 0)])] }

/-- Result of one tick from the empty state. -/
def stateNew' : ExecutionState :=
  (ExecutionState.new.step_execution).getD ExecutionState.new

/-- State whose dependency graph mentions source 1 although the operation
table has no entry for id 1. -/
def stateMissing : ExecutionState :=
  { id := (0, 0)
    state := fun _ => none
    operation_by_id := fun x => if x = 2 then some ⟨1, bodyConst [2]⟩ else none
    has_been_set := fun _ => false
    dependency_graph := [(2, [(1, 0)])] }

/-- State whose store maps id 5 to the explicit absent value. -/
def stateAbsent : ExecutionState :=
  ExecutionState.new.state_insert 5 none

/-! Basic properties of the tick fold. -/

theorem foldl_tickStep_none (s : ExecutionState) (l : List OperationId) :
    l.foldl (tickStep s) none = none := by
  induction l with
  | nil => rfl
  | cons a t ih => simpa [List.foldl, tickStep] using ih

theorem mem_effect_none (s : ExecutionState) {n : OperationId} {l : List OperationId}
    (hm : n ∈ l) (he : nodeEffect s n = none) (o : Option TickAcc) :
    l.foldl (tickStep s) o = none := by
  induction l generalizing o with
  | nil => cases hm
  | cons a t ih =>
    rcases List.mem_cons.mp hm with h | h
    · subst h
      cases o with
      | none => exact foldl_tickStep_none s _
      | some acc =>
        simp only [List.foldl_cons, tickStep, he]
        exact foldl_tickStep_none s _
    · exact ih h _

theorem success_effect_isSome (s : ExecutionState) {l : List OperationId}
    {o : Option TickAcc} {aF : TickAcc} (h : l.foldl (tickStep s) o = some aF)
    {n : OperationId} (hm : n ∈ l) : (nodeEffect s n).isSome = true := by
  by_contra hne
  have he : nodeEffect s n = none := Option.not_isSome_iff_eq_none.mp (by simpa using hne)
  rw [mem_effect_none s hm he o] at h
  cases h

/-! Pointwise description of one node-effect application. -/

theorem applyEffect_store (n : OperationId) (e : NodeEffect) (acc : TickAcc)
    (x : OperationId) :
    (applyEffect n e acc).store x =
      if x = n then
        match e.output with
        | some r => some r
        | none => acc.store x
      else acc.store x := by
  cases he : e.output with
  | none => simp [applyEffect, he]
  | some r => simp [applyEffect, he]

theorem applyEffect_hbs (n : OperationId) (e : NodeEffect) (acc : TickAcc)
    (x : OperationId) :
    (applyEffect n e acc).hbs x =
      ((decide (x = n) && e.output.isSome) || acc.hbs x) := by
  cases he : e.output <;> simp [applyEffect, he]

theorem applyEffect_marked (n : OperationId) (e : NodeEffect) (acc : TickAcc)
    (x : OperationId) :
    (applyEffect n e acc).marked x = (decide (x ∈ e.marks) || acc.marked x) := rfl

/-! Characterization of the accumulator after folding a tick over a node
order: each node writes only its own id, so the final store, ever-set record
and consumption marks are pointwise determined by the per-node effects. -/

theorem foldl_char (s : ExecutionState) :
    ∀ (order : List OperationId) (a0 aF : TickAcc),
      order.foldl (tickStep s) (some a0) = some aF →
      (∀ x, aF.store x =
          if x ∈ order then
            match outputOf s x with
            | some r => some r
            | none => a0.store x
          else a0.store x)
      ∧ (∀ x, aF.hbs x =
          ((decide (x ∈ order) && (outputOf s x).isSome) || a0.hbs x))
      ∧ (∀ x, aF.marked x =
          (decide (∃ m ∈ order, x ∈ marksOf s m) || a0.marked x)) := by
  intro order
  induction order with
  | nil =>
    intro a0 aF h
    cases h
    refine ⟨fun x => by simp, fun x => by simp, fun x => by simp⟩
  | cons a t ih =>
    intro a0 aF h
    cases he : nodeEffect s a with
    | none =>
      rw [List.foldl_cons] at h
      simp only [tickStep, he] at h
      rw [foldl_tickStep_none] at h
      cases h
    | some e =>
      rw [List.foldl_cons] at h
      simp only [tickStep, he] at h
      obtain ⟨ihs, ihh, ihm⟩ := ih _ _ h
      have hout : outputOf s a = e.output := by simp [outputOf, he]
      have hmarks : marksOf s a = e.marks := by simp [marksOf, he]
      refine ⟨fun x => ?_, fun x => ?_, fun x => ?_⟩
      · rw [ihs x, applyEffect_store]
        by_cases hxt : x ∈ t
        · simp only [hxt, if_pos, List.mem_cons, or_true, if_true]
          cases ho : outputOf s x with
          | some r => rfl
          | none =>
            by_cases hxa : x = a
            · subst hxa
              rw [hout] at ho
              simp [ho]
            · simp [hxa]
        · by_cases hxa : x = a
          · subst hxa
            simp only [hxt, if_neg, List.mem_cons, or_false, if_pos rfl, hout]
            simp
          · have : x ∉ (a :: t) := by simp [hxa, hxt]
            simp [hxt, hxa, this]
      · rw [ihh x, applyEffect_hbs]
        by_cases hxa : x = a
        · subst hxa
          rw [hout]
          cases e.output <;> simp [List.mem_cons]
        · by_cases hxt : x ∈ t <;>
            simp [hxa, hxt, List.mem_cons, Bool.or_assoc]
      · rw [ihm x, applyEffect_marked]
        have hiff : (∃ m ∈ a :: t, x ∈ marksOf s m) ↔
            (x ∈ e.marks ∨ ∃ m ∈ t, x ∈ marksOf s m) := by
          constructor
          · rintro ⟨m, hm, hx⟩
            rcases List.mem_cons.mp hm with h' | h'
            · subst h'; rw [hmarks] at hx; exact Or.inl hx
            · exact Or.inr ⟨m, h', hx⟩
          · rintro (hx | ⟨m, hm, hx⟩)
            · exact ⟨a, List.mem_cons_self a t, by rw [hmarks]; exact hx⟩
            · exact ⟨m, List.mem_cons_of_mem a hm, hx⟩
        have hdec : decide (∃ m ∈ a :: t, x ∈ marksOf s m) =
            decide (x ∈ e.marks ∨ ∃ m ∈ t, x ∈ marksOf s m) := by
          rw [decide_eq_decide]; exact hiff
        rw [hdec]
        by_cases h1 : x ∈ e.marks <;>
          by_cases h2 : (∃ m ∈ t, x ∈ marksOf s m) <;> simp [h1, h2]

/-! Characterization of a successful tick. -/

theorem step_success_effect (s s' : ExecutionState)
    (h : s.step_execution = some s') {n : OperationId} (hmem : n ∈ nodesList s) :
    (nodeEffect s n).isSome = true := by
  unfold ExecutionState.step_execution stepOrder at h
  rcases Option.map_eq_some'.mp h with ⟨acc, hacc, _⟩
  exact success_effect_isSome s hacc hmem

theorem step_char (s s' : ExecutionState) (h : s.step_execution = some s') :
    (∀ x, s'.state x =
        if markedOf s x = true then none
        else if x ∈ nodesList s then
          match outputOf s x with
          | some r => some r
          | none => s.state x
        else s.state x)
    ∧ (∀ x, s'.has_been_set x =
        ((decide (x ∈ nodesList s) && (outputOf s x).isSome) || s.has_been_set x))
    ∧ s'.operation_by_id = s.operation_by_id
    ∧ s'.dependency_graph = s.dependency_graph := by
  unfold ExecutionState.step_execution stepOrder at h
  rcases Option.map_eq_some'.mp h with ⟨acc, hacc, hs'⟩
  obtain ⟨hstore, hhbs, hmarked⟩ := foldl_char s (nodesList s) _ acc hacc
  subst hs'
  refine ⟨fun x => ?_, fun x => ?_, rfl, rfl⟩
  · show (if acc.marked x then none else acc.store x) = _
    have hm : acc.marked x = markedOf s x := by
      rw [hmarked x, markedOf]
      simp
    rw [hm, hstore x]
  · show acc.hbs x = _
    exact hhbs x

/-! Properties of the argument-gathering scan. -/

theorem scanPairs_rem (s : ExecutionState) :
    ∀ (pairs : List (OperationId × ArgumentIndex)) (args : List (Option Buf))
      (rem : Nat) (marks : List OperationId)
      (args' : List (Option Buf)) (rem' : Nat) (marks' : List OperationId),
      scanPairs s pairs args rem marks = some (args', rem', marks') →
      rem' = rem - (pairs.filter (fun p => (s.state p.1).isSome)).length := by
  intro pairs
  induction pairs with
  | nil =>
    intro args rem marks args' rem' marks' h
    cases h
    simp
  | cons p rest ih =>
    intro args rem marks args' rem' marks' h
    obtain ⟨src, idx⟩ := p
    cases hv : s.state src with
    | none =>
      rw [scanPairs, hv] at h
      have := ih _ _ _ _ _ _ h
      simpa [hv] using this
    | some v =>
      have h2 : (if idx < args.length then
          scanPairs s rest (args.set idx v) (rem - 1) (marks ++ [src]) else none) =
          some (args', rem', marks') := by
        rw [← h, scanPairs, hv]
      by_cases hidx : idx < args.length
      · rw [if_pos hidx] at h2
        have := ih _ _ _ _ _ _ h2
        rw [this]
        simp [hv, Nat.sub_sub, Nat.add_comm]
      · rw [if_neg hidx] at h2
        cases h2

theorem outputOf_isSome_iff (s : ExecutionState) (n : OperationId)
    (op : OperationNode) (hop : s.operation_by_id n = some op)
    (hN : 1 ≤ op.dependency_count) (hs : (nodeEffect s n).isSome = true) :
    ((outputOf s n).isSome = true ↔ op.dependency_count ≤ fillCount s n) := by
  have hcond : ¬ (op.dependency_count = 0 ∧ s.has_been_set n = true) := by
    rintro ⟨h1, -⟩
    omega
  have hEff : nodeEffect s n =
      (match scanPairs s (entryPairs s n) (List.replicate op.dependency_count none)
          op.dependency_count [] with
       | none => none
       | some (args, rem, marks) =>
         if rem = 0 then some ⟨some (op.body args), marks⟩ else some ⟨none, marks⟩) := by
    rw [nodeEffect, hop]
    exact if_neg hcond
  cases hscan : scanPairs s (entryPairs s n)
      (List.replicate op.dependency_count none) op.dependency_count [] with
  | none =>
    exfalso
    have hnone : nodeEffect s n = none := by rw [hEff, hscan]
    rw [hnone] at hs
    cases hs
  | some t =>
    obtain ⟨args, rem, marks⟩ := t
    have hrem := scanPairs_rem s _ _ _ _ _ _ _ hscan
    have hfill : rem = op.dependency_count - fillCount s n := hrem
    by_cases hz : rem = 0
    · have heq : nodeEffect s n = some ⟨some (op.body args), marks⟩ := by
        rw [hEff, hscan]
        exact if_pos hz
      have hof : outputOf s n = some (op.body args) := by rw [outputOf, heq]
      rw [hof]
      simp only [Option.isSome_some, true_iff]
      omega
    · have heq : nodeEffect s n = some ⟨none, marks⟩ := by
        rw [hEff, hscan]
        exact if_neg hz
      have hof : outputOf s n = none := by rw [outputOf, heq]
      rw [hof]
      simp only [Option.isSome_none, Bool.false_eq_true, false_iff]
      omega

/-! Order-independence of the tick: processing two distinct nodes commutes,
because each node reads only the previous state and writes only its own id
(and consumption marks accumulate as a set union). -/

theorem tickAcc_ext (a b : TickAcc) (h1 : a.store = b.store) (h2 : a.hbs = b.hbs)
    (h3 : a.marked = b.marked) : a = b := by
  cases a
  cases b
  cases h1
  cases h2
  cases h3
  rfl

theorem applyEffect_comm (m n : OperationId) (em en : NodeEffect) (acc : TickAcc)
    (hmn : m ≠ n) :
    applyEffect n en (applyEffect m em acc) = applyEffect m em (applyEffect n en acc) := by
  refine tickAcc_ext _ _ (funext fun x => ?_) (funext fun x => ?_) (funext fun x => ?_)
  · rw [applyEffect_store, applyEffect_store, applyEffect_store, applyEffect_store]
    by_cases hxn : x = n <;> by_cases hxm : x = m
    · exact absurd (by rw [← hxm, hxn]) hmn
    · simp [hxn, hxm, Ne.symm hmn]
    · simp [hxn, hxm, hmn]
    · simp [hxn, hxm]
  · rw [applyEffect_hbs, applyEffect_hbs, applyEffect_hbs, applyEffect_hbs]
    exact Bool.or_left_comm _ _ _
  · rw [applyEffect_marked, applyEffect_marked, applyEffect_marked, applyEffect_marked]
    exact Bool.or_left_comm _ _ _

theorem tickStep_comm (s : ExecutionState) (o : Option TickAcc) (m n : OperationId) :
    tickStep s (tickStep s o m) n = tickStep s (tickStep s o n) m := by
  by_cases hmn : m = n
  · rw [hmn]
  · cases o with
    | none => rfl
    | some acc =>
      cases hm : nodeEffect s m with
      | none =>
        cases hn : nodeEffect s n with
        | none => simp [tickStep, hm, hn]
        | some en => simp [tickStep, hm, hn]
      | some em =>
        cases hn : nodeEffect s n with
        | none => simp [tickStep, hm, hn]
        | some en =>
          simp only [tickStep, hm, hn]
          exact congrArg some (applyEffect_comm m n em en acc hmn)

theorem foldl_tickStep_perm (s : ExecutionState) {l₁ l₂ : List OperationId}
    (h : l₁.Perm l₂) : ∀ o, l₁.foldl (tickStep s) o = l₂.foldl (tickStep s) o := by
  induction h with
  | nil => intro o; rfl
  | cons x _ ih =>
    intro o
    simp only [List.foldl_cons]
    exact ih _
  | swap x y l =>
    intro o
    simp only [List.foldl_cons]
    rw [tickStep_comm]
  | trans _ _ ih₁ ih₂ =>
    intro o
    rw [ih₁ o, ih₂ o]

/-! Consequences of a successful tick used by the temporal property. -/

theorem step_preserves_ops (s s' : ExecutionState) (h : s.step_execution = some s') :
    s'.operation_by_id = s.operation_by_id :=
  (step_char s s' h).2.2.1

theorem fires_sets_hbs (s s' : ExecutionState) (h : s.step_execution = some s')
    (n : OperationId) (hf : fires s n = true) : s'.has_been_set n = true := by
  obtain ⟨-, hh, -, -⟩ := step_char s s' h
  rw [hh n]
  rw [fires] at hf
  rw [hf]
  rfl

theorem hbs_mono (s s' : ExecutionState) (h : s.step_execution = some s')
    (n : OperationId) (hb : s.has_been_set n = true) : s'.has_been_set n = true := by
  obtain ⟨-, hh, -, -⟩ := step_char s s' h
  rw [hh n, hb]
  simp

theorem set_zero_arity_no_fire (s : ExecutionState) (n : OperationId)
    (op : OperationNode) (hop : s.operation_by_id n = some op)
    (h0 : op.dependency_count = 0) (hb : s.has_been_set n = true) :
    fires s n = false := by
  have he : nodeEffect s n = some ⟨none, []⟩ := by
    rw [nodeEffect, hop]
    exact if_pos ⟨h0, hb⟩
  have ho : outputOf s n = none := by rw [outputOf, he]
  rw [fires, ho]
  simp

theorem chain_preserves (n : OperationId) (op : OperationNode) :
    ∀ (k : Nat) (s s' : ExecutionState), stepN s k = some s' →
      s.has_been_set n = true → s.operation_by_id n = some op →
      s'.has_been_set n = true ∧ s'.operation_by_id n = some op := by
  intro k
  induction k with
  | zero =>
    intro s s' h hb hop
    cases h
    exact ⟨hb, hop⟩
  | succ k ih =>
    intro s s' h hb hop
    rw [stepN] at h
    cases hstep : s.step_execution with
    | none => rw [hstep] at h; cases h
    | some s1 =>
      rw [hstep] at h
      have hb1 := hbs_mono s s1 hstep n hb
      have hop1 : s1.operation_by_id n = some op := by
        rw [step_preserves_ops s s1 hstep]
        exact hop
      exact ih s1 s' h hb1 hop1

/-! Lookup after `Create`. -/

theorem alookup_graphCreate_self
    (g : List (OperationId × List (OperationId × ArgumentIndex)))
    (k : OperationId) (deps : List (OperationId × ArgumentIndex)) :
    alookup (graphCreate g k deps) k = some deps.dedup := by
  induction g with
  | nil => simp [graphCreate, alookup]
  | cons e rest ih =>
    obtain ⟨k', es⟩ := e
    by_cases hk : k' = k
    · rw [graphCreate, if_pos hk, alookup, if_pos hk.symm]
    · rw [graphCreate, if_neg hk, alookup, if_neg (fun hc => hk hc.symm)]
      exact ih

/-! Claim theorems. -/

/-- Claim C2: every source id whose stored value was read along at least one
incoming edge during the tick is absent from the resulting state's store,
even when the reading node never fired. -/
theorem consumed_sources_absent (s s' : ExecutionState) (x : OperationId)
    (h : s.step_execution = some s') (hm : markedOf s x = true) :
    s'.state x = none := by
  obtain ⟨hstate, -, -, -⟩ := step_char s s' h
  rw [hstate x, if_pos hm]

/-- Witness for `consumed_sources_absent`: in `stateConsume`, source 1 is
read by node 2 (which never fires, its slot 1 staying empty) and is absent
from the resulting store. -/
theorem consumed_sources_absent_witness :
    markedOf stateConsume 1 = true ∧ fires stateConsume 2 = false
    ∧ stateConsume'.state 1 = none :=
  ⟨rfl, rfl, consumed_sources_absent stateConsume stateConsume' 1 rfl rfl⟩

/-- Claim C9: an id mentioned by the dependency graph (as dependent or as
source) with no entry in the operation table makes the tick panic on the
operation-table lookup instead of returning a new state. -/
theorem missing_operation_panics (s : ExecutionState) (n : OperationId)
    (hmem : n ∈ nodesList s) (hop : s.operation_by_id n = none) :
    s.step_execution = none := by
  have he : nodeEffect s n = none := by rw [nodeEffect, hop]
  unfold ExecutionState.step_execution stepOrder
  rw [mem_effect_none s hmem he]
  rfl

/-- Witness for `missing_operation_panics`: `stateMissing` mentions id 1 only
as a dependency source and has no operation registered for it. -/
theorem missing_operation_panics_witness :
    (1 : OperationId) ∈ nodesList stateMissing
    ∧ stateMissing.operation_by_id 1 = none
    ∧ stateMissing.step_execution = none :=
  ⟨by decide, rfl, missing_operation_panics stateMissing 1 (by decide) rfl⟩

/-- Claim C10: when the store maps an id to the explicit absent value,
`state_get_value` panics on the unwrap instead of returning anything. -/
theorem get_value_on_absent_entry_panics (s : ExecutionState) (i : OperationId)
    (h : s.state i = some none) : s.state_get_value i = none := by
  rw [ExecutionState.state_get_value, h]

/-- Witness for `get_value_on_absent_entry_panics` at id 5 of `stateAbsent`. -/
theorem get_value_on_absent_entry_panics_witness :
    stateAbsent.state 5 = some none ∧ stateAbsent.state_get_value 5 = none :=
  ⟨rfl, get_value_on_absent_entry_panics stateAbsent 5 rfl⟩

/-- Claim C7, counterexample: inserting the explicit absent value and reading
it back panics (the unwrap of `state_get_value`), so `insert` followed by
`get_value` does not return the deserialization of an absent `v`. -/
theorem insert_none_get_value_panics_cex :
    (ExecutionState.new.state_insert 0 none).state_get_value 0 = none := rfl

/-- Claim C7, amended: for every state, id and present buffer `b`,
`state_insert` followed by `state_get_value` returns the deserialization of
`b` (the absent value instead makes `state_get_value` panic). -/
theorem insert_then_get_value_some (s : ExecutionState) (i : OperationId) (b : Buf) :
    (s.state_insert i (some b)).state_get_value i
      = some (some (deserialize_from_buf b)) := by
  have hst : (s.state_insert i (some b)).state i = some (some b) := by
    simp [ExecutionState.state_insert]
  rw [ExecutionState.state_get_value, hst]

/-- Claim C8: two successive `Create` mutations for the same id leave the
id's edge set equal to exactly the set of pairs of the second list; the
second `Create` replaces, never unions. -/
theorem create_replaces_edge_set (s : ExecutionState) (i : OperationId)
    (d1 d2 : List (OperationId × ArgumentIndex)) (p : OperationId × ArgumentIndex) :
    (p ∈ entryPairs (s.apply_dependency_graph_mutations
        [DependencyGraphMutation.Create i d1, DependencyGraphMutation.Create i d2]) i
      ↔ p ∈ d2) := by
  show p ∈ (alookup (graphCreate (graphCreate s.dependency_graph i d1) i d2) i).getD []
      ↔ p ∈ d2
  rw [alookup_graphCreate_self]
  exact List.mem_dedup

/-- Claim C6: the mutation protocol and the tick are pure transitions.  In
this functional embedding the argument state is untouched by construction;
the checkable content is the frame: `apply_dependency_graph_mutations`
changes only the dependency graph (store, operation table and ever-set record
of the result coincide with the input's), and a successful tick changes only
the store and the ever-set record (operation table and dependency graph of
the result coincide with the input's). -/
theorem transitions_frame (s : ExecutionState) (ms : List DependencyGraphMutation)
    (s' : ExecutionState) (h : s.step_execution = some s') :
    (s.apply_dependency_graph_mutations ms).state = s.state
    ∧ (s.apply_dependency_graph_mutations ms).operation_by_id = s.operation_by_id
    ∧ (s.apply_dependency_graph_mutations ms).has_been_set = s.has_been_set
    ∧ s'.operation_by_id = s.operation_by_id
    ∧ s'.dependency_graph = s.dependency_graph :=
  ⟨rfl, rfl, rfl, (step_char s s' h).2.2.1, (step_char s s' h).2.2.2⟩

/-- Witness for `transitions_frame` at the empty state and a singleton
mutation list. -/
theorem transitions_frame_witness :
    ExecutionState.new.step_execution = some stateNew'
    ∧ ((ExecutionState.new.apply_dependency_graph_mutations
          [DependencyGraphMutation.Create 7 []]).state = ExecutionState.new.state
      ∧ (ExecutionState.new.apply_dependency_graph_mutations
          [DependencyGraphMutation.Create 7 []]).operation_by_id
            = ExecutionState.new.operation_by_id
      ∧ (ExecutionState.new.apply_dependency_graph_mutations
          [DependencyGraphMutation.Create 7 []]).has_been_set
            = ExecutionState.new.has_been_set
      ∧ stateNew'.operation_by_id = ExecutionState.new.operation_by_id
      ∧ stateNew'.dependency_graph = ExecutionState.new.dependency_graph) :=
  ⟨rfl, transitions_frame ExecutionState.new [DependencyGraphMutation.Create 7 []]
    stateNew' rfl⟩

/-- Claim C5: the result of a tick does not depend on the order in which the
dependency graph's nodes are iterated: stepping with any permutation of the
node list yields exactly `step_execution`'s result. -/
theorem step_order_irrelevant (s : ExecutionState) (order : List OperationId)
    (h : order.Perm (nodesList s)) : stepOrder s order = s.step_execution := by
  unfold ExecutionState.step_execution stepOrder
  rw [foldl_tickStep_perm s h]

/-- Witness for `step_order_irrelevant`: processing `statePerm`'s two nodes
in the reversed order gives the same tick result. -/
theorem step_order_irrelevant_witness :
    ([1, 2] : List OperationId).Perm (nodesList statePerm)
    ∧ stepOrder statePerm [1, 2] = statePerm.step_execution :=
  ⟨by decide, step_order_irrelevant statePerm [1, 2] (by decide)⟩

/-- Claim C3: a zero-arity node fires at most once over any chain of
successful ticks: if it fires now, it does not fire after any positive number
of further ticks. -/
theorem zero_arity_fires_at_most_once (s s' : ExecutionState) (n : OperationId)
    (op : OperationNode) (k : Nat) (hop : s.operation_by_id n = some op)
    (h0 : op.dependency_count = 0) (hf : fires s n = true)
    (hc : stepN s (k + 1) = some s') : fires s' n = false := by
  rw [stepN] at hc
  cases hstep : s.step_execution with
  | none => rw [hstep] at hc; cases hc
  | some s1 =>
    rw [hstep] at hc
    have hb1 := fires_sets_hbs s s1 hstep n hf
    have hop1 : s1.operation_by_id n = some op := by
      rw [step_preserves_ops s s1 hstep]
      exact hop
    obtain ⟨hb', hop'⟩ := chain_preserves n op k s1 s' hc hb1 hop1
    exact set_zero_arity_no_fire s' n op hop' h0 hb'

/-- Witness for `zero_arity_fires_at_most_once`: the fresh zero-arity node 1
of `stateZero` fires on the first tick and not on the second. -/
theorem zero_arity_fires_at_most_once_witness :
    fires stateZero 1 = true ∧ fires stateZero' 1 = false :=
  ⟨rfl, zero_arity_fires_at_most_once stateZero stateZero' 1 ⟨0, bodyConst [1]⟩ 0
    rfl rfl rfl rfl⟩

/-- Claim C1, counterexample.  First scenario (`stateEvict`): node 2 has
`dependency_count = 1` and its only slot 0 is filled from source 1's stored
value, yet the resulting state holds no output for node 2, because node 3
read node 2's previous value this tick and the final consumption pass removed
node 2's id from the new store.  Second scenario (`stateDup`): node 4 has
`dependency_count = 2` and both its incoming edges target slot 0, so it fires
and stores an output although slot 1 was never filled.  Both refute "stores
an output in the resulting state exactly when all `N` argument slots were
filled". -/
theorem fired_output_evicted_cex :
    ((stateEvict.operation_by_id 2).map OperationNode.dependency_count = some 1
      ∧ entryPairs stateEvict 2 = [(1, 0)]
      ∧ fillCount stateEvict 2 = 1
      ∧ (stateEvict.step_execution).map (fun t => t.state 2) = some none)
    ∧ ((stateDup.operation_by_id 4).map OperationNode.dependency_count = some 2
      ∧ entryPairs stateDup 4 = [(1, 0), (2, 0)]
      ∧ (stateDup.step_execution).map (fun t => (t.state 4).isSome) = some true) :=
  ⟨⟨rfl, rfl, rfl, rfl⟩, ⟨rfl, rfl, rfl⟩⟩

/-- Claim C1, amended: on a non-panicking tick, a node of the dependency
graph with `dependency_count = N ≥ 1` invokes its body exactly when the
number of incoming `(source, slot)` pairs whose source holds a value in the
previous store reaches `N` (counted per pair, so several edges targeting the
same slot each count); when it fires, its output is stored under its id in
the new generation unless the node's own id was read as a source during the
tick, in which case the consumption pass removes the entry; when it does not
fire, its store entry is the previous one (or removed if consumed). -/
theorem step_fires_iff_fill_and_store (s s' : ExecutionState) (n : OperationId)
    (op : OperationNode) (hmem : n ∈ nodesList s)
    (hop : s.operation_by_id n = some op) (hN : 1 ≤ op.dependency_count)
    (h : s.step_execution = some s') :
    (fires s n = true ↔ op.dependency_count ≤ fillCount s n)
    ∧ s'.state n =
        (if markedOf s n = true then none
         else if fires s n = true then some ((outputOf s n).getD none)
         else s.state n) := by
  have hsome := step_success_effect s s' h hmem
  have hiff := outputOf_isSome_iff s n op hop hN hsome
  have hfireseq : fires s n = (outputOf s n).isSome := by
    rw [fires, decide_eq_true hmem]
    simp
  constructor
  · rw [hfireseq]
    exact hiff
  · obtain ⟨hstate, -, -, -⟩ := step_char s s' h
    rw [hstate n]
    by_cases hmk : markedOf s n = true
    · rw [if_pos hmk, if_pos hmk]
    · rw [if_neg hmk, if_neg hmk, if_pos hmem]
      cases ho : outputOf s n with
      | none =>
        have hff : fires s n = false := by rw [hfireseq, ho]; rfl
        simp [hff]
      | some r =>
        have hft : fires s n = true := by rw [hfireseq, ho]; rfl
        simp [hft]

/-- Witness for `step_fires_iff_fill_and_store`: node 2 of `stateFire` with
arity 1, one valued fill, firing and keeping its stored output. -/
theorem step_fires_iff_fill_and_store_witness :
    (2 : OperationId) ∈ nodesList stateFire
    ∧ stateFire.step_execution = some stateFire'
    ∧ ((fires stateFire 2 = true ↔ 1 ≤ fillCount stateFire 2)
      ∧ stateFire'.state 2 =
          (if markedOf stateFire 2 = true then none
           else if fires stateFire 2 = true then some ((outputOf stateFire 2).getD none)
           else stateFire.state 2)) :=
  ⟨by decide, rfl,
    step_fires_iff_fill_and_store stateFire stateFire' 2 ⟨1, bodyConst [9]⟩
      (by decide) rfl (by decide) rfl⟩

/-- Claim C4 (code bug): an incoming edge labelled with the reserved
order-only sentinel `usize::MAX` whose source holds a stored value makes the
tick panic (`args[usize::MAX]` is out of bounds), instead of the documented
no-op order dependency: `step_execution` returns no new state at all. -/
theorem order_only_sentinel_panics :
    entryPairs stateSentinel 2 = [(1, USIZE_MAX)]
    ∧ (stateSentinel.state 1).isSome = true
    ∧ stateSentinel.step_execution = none :=
  ⟨rfl, rfl, rfl⟩
